import Mathlib

/-
  Verification development for the nrinsights event pipeline
  (src/nrinsights.go).

  The pipeline is shallowly embedded as pure Lean functions:
  the Aggregator goroutine (makeBatches/makeBatch), the hand-off
  channel `c.batches` (a list bounded by sendQueueSize), the
  Dispatcher goroutine (sendBatches/sendUnsent/sendBatch) and the
  shutdown protocol (StopAndFlush).  Each atomic action of one of
  the two goroutines is one step of an executable transition
  function; the external HTTP world is an oracle supplying the
  outcome of each delivery attempt.  Go byte lengths (len on a
  string) are modelled by String.length, and time.Duration values
  by nanosecond counts (Nat).
-/

namespace NrInsights

/-! Constants, src/nrinsights.go lines 22-41. -/

/-- One second in nanoseconds (Go time.Second). -/
def second : Nat := 1000000000

/-- How often event batches are sent (line 24). -/
def sendInterval : Nat := 60 * second

/-- Capacity of the batches hand-off channel (line 28). -/
def sendQueueSize : Nat := 20

/-- Maximum events per call, defined by New Relic (line 31). -/
def maxEventsPerCall : Nat := 1000

/-- Maximum size per call, defined by New Relic (line 34). -/
def maxSizePerCall : Nat := 5000000

/-- Default HTTP timeout, 10s in nanoseconds (line 37). -/
def defaultHttpTimeout : Nat := 10 * second

/-- Fast HTTP timeout for exit cleanup, 2s in nanoseconds (line 40). -/
def fastHttpTimeout : Nat := 2 * second

/-- The early-flush event-count threshold `maxEventsPerCall*0.90` of
line 262.  Go evaluates the untyped constant product exactly, giving
the integer 900; `maxEventsPerCall * 9 / 10 = 900` as well. -/
def eventsFlushThreshold : Nat := maxEventsPerCall * 9 / 10

/-- The early-flush byte threshold `maxSizePerCall*0.90` of line 262,
exactly the integer 4500000 in Go's constant arithmetic. -/
def bytesFlushThreshold : Nat := maxSizePerCall * 9 / 10

/-! Serialization (RegisterEvent, lines 236-245).

An Event's values map is a list of field-name/value pairs.  Go's
`encoding/json` is an external library; it is modelled by `goMarshal`
below: each supported value renders to a JSON fragment, and
marshalling fails exactly when some value is of an unsupported kind
(Go: a func or channel value makes json.Marshal return an error).
Key ordering and string escaping of the real library are abstracted;
RegisterEvent only branches on success versus failure of the
marshaller. -/

/-- A Go `interface\x7b\x7d` value stored in an Event's map: the kinds the
serializer supports, plus an unsupported kind on which json.Marshal
errors. -/
inductive GoValue where
  | str (s : String)
  | num (n : Int)
  | boolean (b : Bool)
  | unsupported
deriving DecidableEq

/-- JSON rendering of one supported value; `none` on the unsupported
kind (json.Marshal error). -/
def marshalValue : GoValue → Option String
  | GoValue.str s => some ("\"" ++ s ++ "\"")
  | GoValue.num n => some (toString n)
  | GoValue.boolean b => some (if b then "true" else "false")
  | GoValue.unsupported => none

/-- Go's strings.Join (also the comma-joining done implicitly by
json.Marshal over object members). -/
def goJoin (sep : String) : List String → String
  | [] => ""
  | [x] => x
  | x :: y :: rest => x ++ sep ++ goJoin sep (y :: rest)

/-- Render every key/value pair of an event, failing if any single
value fails to marshal. -/
def marshalPairs : List (String × GoValue) → Option (List String)
  | [] => some []
  | (k, v) :: rest =>
    match marshalValue v, marshalPairs rest with
    | some sv, some srest => some (("\"" ++ k ++ "\":" ++ sv) :: srest)
    | _, _ => none

/-- Model of `json.Marshal(e.values)` (line 237): one JSON object, or
`none` when the event cannot be encoded. -/
def goMarshal (values : List (String × GoValue)) : Option String :=
  (marshalPairs values).map (fun fields => "\x7b" ++ goJoin "," fields ++ "\x7d")

/-- Whether every value in the event is of a kind json.Marshal can
encode. -/
def encodable (values : List (String × GoValue)) : Bool :=
  values.all (fun kv =>
    match kv.2 with
    | GoValue.unsupported => false
    | _ => true)

/-- RegisterEvent, lines 236-245.  `events` is the content of the
buffered `c.events` channel.  Returns the error returned to the
caller (`none` = nil) and the channel content after the call: on a
marshal error the function returns before the channel send, so the
channel is untouched; on success the record is sent and nil is
returned. -/
def RegisterEvent (events : List String) (values : List (String × GoValue)) :
    Option String × List String :=
  match goMarshal values with
  | none => (some "could not marshal event", events)
  | some asjson => (none, events ++ [asjson])

/-! The Aggregator and the Dispatcher. -/

/-- The batch string built at line 280:
`"[" + strings.Join(c.eventQueue, ",") + "]"`. -/
def batchString (q : List String) : String :=
  "[" ++ goJoin "," q ++ "]"

/-- The mutable state of a started Connection that the two pipeline
goroutines touch (lines 69-78): the Aggregator's pending queue and
its byte counter, the buffered `c.batches` channel (head = next to be
received), the Dispatcher's `c.unsent` list and the current HTTP
timeout.  `formed` is pure instrumentation: every record list ever
materialized into a batch by makeBatch, in order, whether or not the
non-blocking channel send kept it. -/
structure ConnState where
  eventQueue : List String
  queueBytes : Nat
  batches : List String
  unsent : List String
  httpTimeout : Nat
  formed : List (List String)
deriving DecidableEq

/-- makeBatch, lines 275-289: return immediately on an empty queue;
otherwise build the batch string, attempt a non-blocking send into
the `c.batches` channel (dropping the batch when the channel already
holds sendQueueSize items), and reset the pending queue and byte
counter. -/
def makeBatch (st : ConnState) : ConnState :=
  if st.eventQueue = [] then st
  else
    { st with
      batches :=
        if st.batches.length < sendQueueSize
        then st.batches ++ [batchString st.eventQueue]
        else st.batches
      eventQueue := []
      queueBytes := 0
      formed := st.formed ++ [st.eventQueue] }

/-- Lines 258-259: append the record to the pending queue and add its
byte length to the running counter. -/
def ingest (st : ConnState) (e : String) : ConnState :=
  { st with
    eventQueue := st.eventQueue ++ [e],
    queueBytes := st.queueBytes + e.length }

/-- One iteration of the event branch of makeBatches (lines 253-264):
append the record, add its byte length, and flush early when the
queue passes 90% of either New Relic limit (the check of line 262
runs on the post-append state). -/
def evStep (st : ConnState) (e : String) : ConnState :=
  if eventsFlushThreshold < (ingest st e).eventQueue.length ∨
     bytesFlushThreshold < (ingest st e).queueBytes
  then makeBatch (ingest st e) else ingest st e

/-- Outcome of the external HTTP exchange of one sendBatch call
(lines 314-344): whether http.NewRequest succeeded, whether client.Do
succeeded, the response status code, and whether reading the response
body succeeded (only consulted on a non-200 status). -/
structure HttpOutcome where
  requestOk : Bool
  responseOk : Bool
  status : Nat
  bodyReadOk : Bool
deriving DecidableEq

/-- The Boolean result of sendBatch (lines 314-344), given the HTTP
outcome: false (queue for resend) when request construction fails,
when the transport fails, or when a non-200 response's body cannot be
read.  NOTE the non-200/readable-body path: the source logs
"non-200 result ...; queueing for resend" (line 340) but then falls
out of the if statement and executes `return true` (line 343). -/
def sendBatch (o : HttpOutcome) : Bool :=
  if !o.requestOk then false
  else if !o.responseOk then false
  else if o.status != 200 then
    if !o.bodyReadOk then false else true
  else true

/-- The traversal of sendUnsent (lines 303-312) with the per-attempt
sendBatch results abstracted to a Boolean oracle `f`: `f i` is the
result of the i-th sendBatch call of this pass.  An element is
removed exactly when its attempt returned true. -/
def sendUnsentAux (f : Nat → Bool) : Nat → List String → List String
  | _, [] => []
  | i, b :: rest =>
    if f i then sendUnsentAux f (i + 1) rest
    else b :: sendUnsentAux f (i + 1) rest

/-- sendUnsent, lines 303-312: walk `c.unsent` from the front,
removing each element whose delivery attempt succeeds. -/
def sendUnsent (f : Nat → Bool) (l : List String) : List String :=
  sendUnsentAux f 0 l

/-- sendUnsent with each attempt's Boolean produced by sendBatch from
the i-th HTTP outcome, as at line 308. -/
def sendUnsentHttp (outs : Nat → HttpOutcome) (l : List String) : List String :=
  sendUnsent (fun i => sendBatch (outs i)) l

/-- One atomic action of one of the two goroutines:
`ev e` = the Aggregator receives record `e` from `c.events`;
`tick` = the Aggregator's sendInterval ticker fires (line 266);
`recv outs` = the Dispatcher receives one batch from `c.batches`,
pushes it onto `c.unsent` and runs one sendUnsent pass whose HTTP
outcomes are given by `outs` (lines 292-295). -/
inductive SysInput where
  | ev (e : String)
  | tick
  | recv (outs : Nat → HttpOutcome)

/-- The interleaving semantics: one step. -/
def sysStep (st : ConnState) : SysInput → ConnState
  | SysInput.ev e => evStep st e
  | SysInput.tick => makeBatch st
  | SysInput.recv outs =>
    match st.batches with
    | [] => st
    | b :: rest =>
      { st with batches := rest, unsent := sendUnsentHttp outs (st.unsent ++ [b]) }

/-- Run a sequence of steps. -/
def sysRun (st : ConnState) : List SysInput → ConnState
  | [] => st
  | i :: rest => sysRun (sysStep st i) rest

/-- The state right after Start() (lines 89-115): empty queue and
counter, empty channel, empty unsent list, default timeout. -/
def startState : ConnState :=
  { eventQueue := []
    queueBytes := 0
    batches := []
    unsent := []
    httpTimeout := defaultHttpTimeout
    formed := [] }

/-- A state the started pipeline can reach by some interleaving of
goroutine actions. -/
def Reachable (s : ConnState) : Prop :=
  ∃ ins : List SysInput, sysRun startState ins = s

/-! The HTTP request built by sendBatch, lines 315-322. -/

/-- The parts of the http.Request that sendBatch constructs. -/
structure HttpRequest where
  method : String
  url : String
  headers : List (String × String)
  body : String
deriving DecidableEq

/-- Request construction of sendBatch, lines 315-322: POST to the
account's events endpoint, the X-Insert-Key and Content-Type headers,
and the batch string as the body. -/
def buildRequest (accountId : Int) (apiKey : String) (batch : String) : HttpRequest :=
  { method := "POST"
    url := "https://insights-collector.newrelic.com/v1/accounts/" ++
           toString accountId ++ "/events"
    headers := [("X-Insert-Key", apiKey), ("Content-Type", "application/json")]
    body := batch }

/-! Shutdown, StopAndFlush (lines 117-122) together with the
tails of makeBatches (lines 271-272) and sendBatches (lines 297-300). -/

/-- A sendUnsent pass that also records, for each element of the
list, that one delivery was attempted for it and at which HTTP
timeout. -/
def sendUnsentLogAux (t : Nat) (outs : Nat → HttpOutcome) :
    Nat → List String → List String × List (String × Nat)
  | _, [] => ([], [])
  | i, b :: rest =>
    let r := sendUnsentLogAux t outs (i + 1) rest
    (if sendBatch (outs i) then r.1 else b :: r.1, (b, t) :: r.2)

/-- Logged sendUnsent pass over a whole list. -/
def sendUnsentLog (t : Nat) (outs : Nat → HttpOutcome) (l : List String) :
    List String × List (String × Nat) :=
  sendUnsentLogAux t outs 0 l

/-- The drain phase of sendBatches after `close(c.batches)`
(lines 292-295): each batch still buffered in the channel is pushed
onto `c.unsent` and followed by a sendUnsent pass; `outs k` gives the
HTTP outcomes of the pass run after the k-th drained batch. -/
def drainBatches (outs : Nat → Nat → HttpOutcome) :
    Nat → List String → List String → List String
  | _, [], unsent => unsent
  | k, b :: rest, unsent =>
    drainBatches outs (k + 1) rest (sendUnsentHttp (outs k) (unsent ++ [b]))

/-- Observations of one StopAndFlush call. -/
structure StopObs where
  final : ConnState
  finalPassLog : List (String × Nat)
  eventsDone : Bool
  batchesDone : Bool

/-- StopAndFlush, lines 117-122, with the shutdown tails of the two
goroutines inlined in the order the channel closes force:
1. `close(c.events)` makes the Aggregator drain the records still
   buffered in `c.events` (`pending`), flush the remaining partial
   batch (line 271) and send `c.eventsDone` (line 272), which
   StopAndFlush receives (line 119);
2. `close(c.batches)` makes the Dispatcher drain the batches still
   buffered in `c.batches` (lines 292-295), lower the timeout to
   fastHttpTimeout (line 297), run one last sendUnsent pass over the
   whole backlog (line 298) and send `c.batchesDone` (line 300),
   which StopAndFlush receives (line 121) before returning. -/
def StopAndFlush (st : ConnState) (pending : List String)
    (drainOuts : Nat → Nat → HttpOutcome) (finalOuts : Nat → HttpOutcome) : StopObs :=
  let st1 := makeBatch (pending.foldl evStep st)
  let unsent1 := drainBatches drainOuts 0 st1.batches st1.unsent
  let r := sendUnsentLog fastHttpTimeout finalOuts unsent1
  { final := { st1 with batches := [], unsent := r.1, httpTimeout := fastHttpTimeout }
    finalPassLog := r.2
    eventsDone := true
    batchesDone := true }

/-! Invariant predicates and concrete inputs used by the theorems
below. -/

/-- The running byte counter agrees with the byte lengths of the
records currently pending (lines 258-259 keep these in lock step, and
lines 287-288 reset both). -/
def bytesInv (st : ConnState) : Prop :=
  st.queueBytes = (st.eventQueue.map String.length).sum

/-- The pending queue rests at or below both 90% flush thresholds:
whenever a record arrival pushes it past either threshold, line 263
flushes immediately, so a settled state never exceeds them. -/
def goodAgg (st : ConnState) : Prop :=
  st.eventQueue.length ≤ eventsFlushThreshold ∧
  st.queueBytes ≤ bytesFlushThreshold

/-- The largest single-record byte length for which every batch the
Aggregator forms stays within maxSizePerCall:
bytesFlushThreshold + maxSafeRecordLen + (eventsFlushThreshold + 1) + 1
= maxSizePerCall exactly. -/
def maxSafeRecordLen : Nat := 499098

/-- Every record pending in the queue is within maxSafeRecordLen. -/
def queueBounded (st : ConnState) : Prop :=
  ∀ e ∈ st.eventQueue, e.length ≤ maxSafeRecordLen

/-- Every batch ever formed is non-empty and within the New Relic
per-call event count limit. -/
def formedCountOk (st : ConnState) : Prop :=
  ∀ q ∈ st.formed, 1 ≤ q.length ∧ q.length ≤ maxEventsPerCall

/-- Every batch ever formed serializes to at most maxSizePerCall
bytes. -/
def formedSizeOk (st : ConnState) : Prop :=
  ∀ q ∈ st.formed, (batchString q).length ≤ maxSizePerCall

/-- Combined invariant carrying the byte-size analysis. -/
def sizeInv (st : ConnState) : Prop :=
  bytesInv st ∧ goodAgg st ∧ queueBounded st ∧ formedSizeOk st

/-- Combined invariant carrying the event-count analysis. -/
def countInv (st : ConnState) : Prop :=
  goodAgg st ∧ formedCountOk st

/-- The records carried by the `ev` inputs of a trace, in order. -/
def evRecords : List SysInput → List String
  | [] => []
  | SysInput.ev e :: rest => e :: evRecords rest
  | SysInput.tick :: rest => evRecords rest
  | SysInput.recv _ :: rest => evRecords rest

/-- An HTTP outcome in which the transport fails (client.Do returns
an error, line 327), making sendBatch return false. -/
def transportFail : HttpOutcome :=
  { requestOk := true, responseOk := false, status := 0, bodyReadOk := true }

/-- One produce/flush/fail cycle: a record arrives, the ticker
flushes it into the channel, the Dispatcher receives it and its
delivery attempt fails at the transport. -/
def failCycle : List SysInput :=
  [SysInput.ev "e", SysInput.tick, SysInput.recv (fun _ => transportFail)]

/-- `n` consecutive produce/flush/fail cycles. -/
def failCycles : Nat → List SysInput
  | 0 => []
  | n + 1 => failCycle ++ failCycles n

/-- A single record of maxSizePerCall bytes. -/
def bigRecord : String := String.mk (List.replicate maxSizePerCall 'a')

/-! Basic lemmas about the batch string and makeBatch. -/

theorem goJoin_comma_length (l : List String) (h : l ≠ []) :
    (goJoin "," l).length = (l.map String.length).sum + (l.length - 1) := by
  induction l with
  | nil => exact absurd rfl h
  | cons x rest ih =>
    cases rest with
    | nil => simp [goJoin]
    | cons y rest' =>
      have hsep : (",").length = 1 := rfl
      have ih' := ih (by simp)
      simp [goJoin, String.length_append, hsep, ih']
      omega

theorem batchString_length (q : List String) (h : q ≠ []) :
    (batchString q).length = (q.map String.length).sum + q.length + 1 := by
  have h1 : ("[").length = 1 := rfl
  have h2 : ("]").length = 1 := rfl
  have hq : 1 ≤ q.length := by
    cases q with
    | nil => exact absurd rfl h
    | cons a t => simp
  simp [batchString, String.length_append, goJoin_comma_length q h, h1, h2]
  omega

theorem makeBatch_eventQueue (st : ConnState) : (makeBatch st).eventQueue = [] := by
  by_cases h : st.eventQueue = [] <;> simp [makeBatch, h]

theorem makeBatch_unsent (st : ConnState) : (makeBatch st).unsent = st.unsent := by
  by_cases h : st.eventQueue = [] <;> simp [makeBatch, h]

theorem makeBatch_httpTimeout (st : ConnState) :
    (makeBatch st).httpTimeout = st.httpTimeout := by
  by_cases h : st.eventQueue = [] <;> simp [makeBatch, h]

theorem makeBatch_batches_le (st : ConnState)
    (h : st.batches.length ≤ sendQueueSize) :
    (makeBatch st).batches.length ≤ sendQueueSize := by
  by_cases hq : st.eventQueue = []
  · simpa [makeBatch, hq] using h
  · simp only [makeBatch, hq, if_neg hq]
    by_cases hb : st.batches.length < sendQueueSize
    · simp [hb]; omega
    · simpa [hb] using h

theorem makeBatch_batches_full (st : ConnState)
    (h : st.batches.length = sendQueueSize) :
    (makeBatch st).batches = st.batches := by
  have hlt : ¬ st.batches.length < sendQueueSize := by omega
  by_cases hq : st.eventQueue = [] <;> simp [makeBatch, hq, hlt]

/-! C7. -/

/-- C7: a flush invoked while the pending record sequence is empty is
a no-op — makeBatch returns before touching any state (line 276), so
no empty batch is ever enqueued into the backlog channel. -/
theorem c7_empty_flush_noop (st : ConnState) (h : st.eventQueue = []) :
    makeBatch st = st := by
  simp [makeBatch, h]

theorem c7_empty_flush_noop_witness : makeBatch startState = startState :=
  c7_empty_flush_noop startState rfl

/-! C5: one sendUnsent pass is exactly a positional filter. -/

theorem sendUnsentAux_eq_filterMap (f : Nat → Bool) :
    ∀ (l : List String) (i : Nat),
      sendUnsentAux f i l =
        (List.enumFrom i l).filterMap (fun p => if f p.1 then none else some p.2)
  | [], _ => rfl
  | b :: rest, i => by
    by_cases h : f i <;>
      simp [sendUnsentAux, List.enumFrom, h,
        sendUnsentAux_eq_filterMap f rest (i + 1)]

theorem sendUnsentAux_sublist (f : Nat → Bool) :
    ∀ (l : List String) (i : Nat), (sendUnsentAux f i l).Sublist l
  | [], _ => List.Sublist.slnil
  | b :: rest, i => by
    by_cases h : f i
    · simpa [sendUnsentAux, h] using (sendUnsentAux_sublist f rest (i + 1)).cons b
    · simpa [sendUnsentAux, h] using (sendUnsentAux_sublist f rest (i + 1)).cons₂ b

/-- C5: for every backlog contents `l` and every pattern `f` of
per-attempt sendBatch results, a single sendUnsent pass removes
exactly the batches whose attempt succeeded and keeps every failed
batch at its original position: the resulting backlog is precisely
the ordered subsequence of the failed batches (a Sublist, so relative
order is preserved). -/
theorem c5_pass_keeps_failures_in_order (f : Nat → Bool) (l : List String) :
    sendUnsent f l =
      l.enum.filterMap (fun p => if f p.1 then none else some p.2) ∧
    (sendUnsent f l).Sublist l :=
  ⟨sendUnsentAux_eq_filterMap f l 0, sendUnsentAux_sublist f l 0⟩

/-! C9. -/

/-- C9: the delivery attempt for a batch formed from the record list
`q` constructs an HTTP POST to
https://insights-collector.newrelic.com/v1/accounts/NUMBER/events
whose X-Insert-Key header is the configured API key, whose
Content-Type header is application/json, and whose body is the one
JSON array obtained by joining the batch's records (lines 315-322 and
280). -/
theorem c9_request_shape (accountId : Int) (apiKey : String) (q : List String) :
    buildRequest accountId apiKey (batchString q) =
      { method := "POST"
        url := "https://insights-collector.newrelic.com/v1/accounts/" ++
               toString accountId ++ "/events"
        headers := [("X-Insert-Key", apiKey), ("Content-Type", "application/json")]
        body := "[" ++ goJoin "," q ++ "]" } ∧
    ("X-Insert-Key", apiKey) ∈ (buildRequest accountId apiKey (batchString q)).headers ∧
    ("Content-Type", "application/json") ∈
      (buildRequest accountId apiKey (batchString q)).headers := by
  refine ⟨rfl, ?_, ?_⟩ <;> simp [buildRequest]

/-! C1: the non-200 delivery path. -/

/-- C1 (code bug): a delivery attempt whose HTTP exchange succeeds
but returns status 500 with a readable body makes sendBatch return
true: the non-200 branch (lines 333-341) logs
"non-200 result ...; queueing for resend" but then falls through to
`return true` (line 343), so the surrounding sendUnsent pass REMOVES
the batch from the backlog (line 308-309) and it is never retried —
the opposite of what the claim (and the code's own log message)
states. -/
theorem c1_non200_batch_removed :
    sendBatch { requestOk := true, responseOk := true, status := 500,
                bodyReadOk := true } = true ∧
    sendUnsentHttp
      (fun _ => { requestOk := true, responseOk := true, status := 500,
                  bodyReadOk := true })
      ["[\x7b\"eventType\":\"Transaction\"\x7d]"] = [] := by
  exact ⟨rfl, rfl⟩

/-! C8: RegisterEvent and the serialization error path. -/

theorem marshalPairs_isSome (values : List (String × GoValue)) :
    (marshalPairs values).isSome = encodable values := by
  induction values with
  | nil => rfl
  | cons kv rest ih =>
    obtain ⟨k, v⟩ := kv
    cases v with
    | unsupported =>
      have hcons : encodable ((k, GoValue.unsupported) :: rest) = false := rfl
      simp [marshalPairs, marshalValue, hcons]
    | str s =>
      have hcons : encodable ((k, GoValue.str s) :: rest) = encodable rest := rfl
      cases h : marshalPairs rest <;>
        simp [marshalPairs, marshalValue, hcons, ← ih, h]
    | num n =>
      have hcons : encodable ((k, GoValue.num n) :: rest) = encodable rest := rfl
      cases h : marshalPairs rest <;>
        simp [marshalPairs, marshalValue, hcons, ← ih, h]
    | boolean b =>
      have hcons : encodable ((k, GoValue.boolean b) :: rest) = encodable rest := rfl
      cases h : marshalPairs rest <;>
        simp [marshalPairs, marshalValue, hcons, ← ih, h]

theorem goMarshal_isSome (values : List (String × GoValue)) :
    (goMarshal values).isSome = encodable values := by
  rw [← marshalPairs_isSome]
  cases h : marshalPairs values <;> simp [goMarshal, h]

/-- C8: when an event cannot be encoded, RegisterEvent returns the
serialization error synchronously and the event never enters the
pipeline (the `c.events` channel is untouched, since the function
returns at line 239 before the send at line 242); when the event is
encodable, RegisterEvent returns nil. -/
theorem c8_registerEvent (events : List String)
    (values : List (String × GoValue)) :
    (encodable values = false →
      (RegisterEvent events values).1.isSome = true ∧
      (RegisterEvent events values).2 = events) ∧
    (encodable values = true → (RegisterEvent events values).1 = none) := by
  constructor
  · intro h
    have hnone : goMarshal values = none := by
      have hs := goMarshal_isSome values
      rw [h] at hs
      exact Option.not_isSome_iff_eq_none.mp (by simp [hs])
    simp [RegisterEvent, hnone]
  · intro h
    have hs : (goMarshal values).isSome = true := by
      rw [goMarshal_isSome, h]
    obtain ⟨s, hsome⟩ := Option.isSome_iff_exists.mp hs
    simp [RegisterEvent, hsome]

theorem c8_registerEvent_witness :
    ((RegisterEvent [] [("f", GoValue.unsupported)]).1.isSome = true ∧
     (RegisterEvent [] [("f", GoValue.unsupported)]).2 = []) ∧
    (RegisterEvent [] [("a", GoValue.str "x")]).1 = none :=
  ⟨(c8_registerEvent [] [("f", GoValue.unsupported)]).1 rfl,
   (c8_registerEvent [] [("a", GoValue.str "x")]).2 rfl⟩

/-! C10: the byte counter tracks the pending queue. -/

theorem bytesInv_makeBatch (st : ConnState) (h : bytesInv st) :
    bytesInv (makeBatch st) := by
  by_cases hq : st.eventQueue = []
  · simpa [makeBatch, hq] using h
  · simp [bytesInv, makeBatch, hq]

theorem bytesInv_ingest (st : ConnState) (e : String) (h : bytesInv st) :
    bytesInv (ingest st e) := by
  simp only [bytesInv, ingest] at h ⊢
  simp [h]

theorem bytesInv_evStep (st : ConnState) (e : String) (h : bytesInv st) :
    bytesInv (evStep st e) := by
  unfold evStep
  by_cases hf : eventsFlushThreshold < (ingest st e).eventQueue.length ∨
      bytesFlushThreshold < (ingest st e).queueBytes
  · simpa [hf] using bytesInv_makeBatch _ (bytesInv_ingest st e h)
  · simpa [hf] using bytesInv_ingest st e h

theorem bytesInv_sysStep (st : ConnState) (i : SysInput) (h : bytesInv st) :
    bytesInv (sysStep st i) := by
  cases i with
  | ev e => exact bytesInv_evStep st e h
  | tick => exact bytesInv_makeBatch st h
  | recv outs =>
    cases hb : st.batches with
    | nil => simpa [sysStep, hb] using h
    | cons b rest => simpa [sysStep, hb, bytesInv] using h

theorem bytesInv_sysRun : ∀ (ins : List SysInput) (st : ConnState),
    bytesInv st → bytesInv (sysRun st ins)
  | [], _, h => h
  | i :: rest, st, h => bytesInv_sysRun rest _ (bytesInv_sysStep st i h)

/-- C10: at every reachable point of the Aggregator's execution the
running counter queueBytes equals the sum of the byte lengths of the
records in the pending eventQueue; every record arrival (lines
258-259) and every flush (lines 287-288, also when the batch is
dropped by the full channel) preserves this. -/
theorem c10_queueBytes_tracks_queue (st : ConnState) (ins : List SysInput)
    (h : st.queueBytes = (st.eventQueue.map String.length).sum) :
    (sysRun st ins).queueBytes =
      ((sysRun st ins).eventQueue.map String.length).sum :=
  bytesInv_sysRun ins st h

theorem c10_queueBytes_tracks_queue_witness :
    (sysRun startState [SysInput.ev "a", SysInput.tick]).queueBytes =
      ((sysRun startState [SysInput.ev "a", SysInput.tick]).eventQueue.map
        String.length).sum :=
  c10_queueBytes_tracks_queue startState [SysInput.ev "a", SysInput.tick] rfl

/-! C2: what is and is not bounded by sendQueueSize. -/

theorem evStep_batches_le (st : ConnState) (e : String)
    (h : st.batches.length ≤ sendQueueSize) :
    (evStep st e).batches.length ≤ sendQueueSize := by
  unfold evStep
  by_cases hf : eventsFlushThreshold < (ingest st e).eventQueue.length ∨
      bytesFlushThreshold < (ingest st e).queueBytes
  · rw [if_pos hf]
    exact makeBatch_batches_le _ (by simpa [ingest] using h)
  · rw [if_neg hf]
    simpa [ingest] using h

theorem sysStep_batches_le (st : ConnState) (i : SysInput)
    (h : st.batches.length ≤ sendQueueSize) :
    (sysStep st i).batches.length ≤ sendQueueSize := by
  cases i with
  | ev e => exact evStep_batches_le st e h
  | tick => exact makeBatch_batches_le st h
  | recv outs =>
    cases hb : st.batches with
    | nil => simp [sysStep, hb]
    | cons b rest =>
      rw [hb] at h
      simp only [sysStep, hb]
      simp at h ⊢
      omega

theorem sysRun_batches_le : ∀ (ins : List SysInput) (st : ConnState),
    st.batches.length ≤ sendQueueSize →
    (sysRun st ins).batches.length ≤ sendQueueSize
  | [], _, h => h
  | i :: rest, st, h => sysRun_batches_le rest _ (sysStep_batches_le st i h)

/-- C2 (amended): in every reachable state the `c.batches` hand-off
channel holds at most sendQueueSize (20) batches; a flush never
pushes it past that bound, and when the channel is at capacity the
newly formed batch is dropped by the non-blocking send of lines
282-285 (the channel is left unchanged) instead of blocking the
Aggregator.  (The Dispatcher's unsent retry list is NOT covered by
the bound — see the counterexample.) -/
theorem c2_channel_bounded (s : ConnState) (h : Reachable s) :
    s.batches.length ≤ sendQueueSize ∧
    (makeBatch s).batches.length ≤ sendQueueSize ∧
    (s.batches.length = sendQueueSize → (makeBatch s).batches = s.batches) := by
  obtain ⟨ins, rfl⟩ := h
  have hb := sysRun_batches_le ins startState (by simp [startState])
  exact ⟨hb, makeBatch_batches_le _ hb, fun hfull => makeBatch_batches_full _ hfull⟩

theorem c2_channel_bounded_witness :
    startState.batches.length ≤ sendQueueSize ∧
    (makeBatch startState).batches.length ≤ sendQueueSize ∧
    (startState.batches.length = sendQueueSize →
      (makeBatch startState).batches = startState.batches) :=
  c2_channel_bounded startState ⟨[], rfl⟩

/-- C2 counterexample: the backlog of not-yet-confirmed-delivered
batches is NOT bounded by sendQueueSize.  After 21 produce/flush/fail
cycles (each delivery attempt failing at the transport) the
Dispatcher's unsent list plus the channel hold 21 undelivered
batches: sendBatches moves batches out of the bounded channel into
the unbounded `c.unsent` list (line 293), so under persistent
delivery failure the total backlog exceeds 20. -/
theorem c2_counterexample :
    ¬ (∀ s : ConnState, Reachable s →
        s.batches.length + s.unsent.length ≤ sendQueueSize) := by
  intro hall
  have hle := hall _ ⟨failCycles 21, rfl⟩
  have h21 : (sysRun startState (failCycles 21)).batches.length +
      (sysRun startState (failCycles 21)).unsent.length = 21 := by
    set_option maxRecDepth 100000 in decide
  have hq : sendQueueSize = 20 := rfl
  rw [h21, hq] at hle
  omega

/-! C3: batch size bounds at formation time. -/

theorem goodAgg_makeBatch_of_ne (st : ConnState) (hq : st.eventQueue ≠ []) :
    goodAgg (makeBatch st) := by
  simp [makeBatch, hq, goodAgg]

theorem goodAgg_makeBatch (st : ConnState) (h : goodAgg st) :
    goodAgg (makeBatch st) := by
  by_cases hq : st.eventQueue = []
  · simpa [makeBatch, hq] using h
  · exact goodAgg_makeBatch_of_ne st hq

theorem formedCountOk_makeBatch (st : ConnState)
    (hlen : st.eventQueue.length ≤ maxEventsPerCall)
    (h : formedCountOk st) : formedCountOk (makeBatch st) := by
  by_cases hq : st.eventQueue = []
  · simpa [makeBatch, hq] using h
  · intro q hqmem
    simp [makeBatch, hq] at hqmem
    rcases hqmem with hmem | rfl
    · exact h q hmem
    · refine ⟨?_, hlen⟩
      have := List.length_pos.mpr hq
      omega

theorem countInv_evStep (st : ConnState) (e : String) (h : countInv st) :
    countInv (evStep st e) := by
  obtain ⟨hg, hf⟩ := h
  unfold evStep
  by_cases hc : eventsFlushThreshold < (ingest st e).eventQueue.length ∨
      bytesFlushThreshold < (ingest st e).queueBytes
  · rw [if_pos hc]
    refine ⟨goodAgg_makeBatch_of_ne _ (by simp [ingest]), ?_⟩
    refine formedCountOk_makeBatch _ ?_ hf
    have h1 : st.eventQueue.length ≤ eventsFlushThreshold := hg.1
    have h2 : eventsFlushThreshold + 1 ≤ maxEventsPerCall := by decide
    show (st.eventQueue ++ [e]).length ≤ maxEventsPerCall
    simp
    omega
  · rw [if_neg hc]
    push_neg at hc
    exact ⟨hc, hf⟩

theorem countInv_sysStep (st : ConnState) (i : SysInput) (h : countInv st) :
    countInv (sysStep st i) := by
  cases i with
  | ev e => exact countInv_evStep st e h
  | tick =>
    obtain ⟨hg, hf⟩ := h
    refine ⟨goodAgg_makeBatch st hg, formedCountOk_makeBatch st ?_ hf⟩
    have h2 : eventsFlushThreshold ≤ maxEventsPerCall := by decide
    have h1 := hg.1
    omega
  | recv outs =>
    cases hb : st.batches with
    | nil => simpa [sysStep, hb] using h
    | cons b rest =>
      obtain ⟨hg, hf⟩ := h
      simp only [sysStep, hb]
      exact ⟨hg, hf⟩

theorem countInv_sysRun : ∀ (ins : List SysInput) (st : ConnState),
    countInv st → countInv (sysRun st ins)
  | [], _, h => h
  | i :: rest, st, h => countInv_sysRun rest _ (countInv_sysStep st i h)

theorem formedSizeOk_makeBatch (st : ConnState)
    (hbytes : bytesInv st)
    (hsum : st.queueBytes + st.eventQueue.length + 1 ≤ maxSizePerCall)
    (h : formedSizeOk st) : formedSizeOk (makeBatch st) := by
  by_cases hq : st.eventQueue = []
  · simpa [makeBatch, hq] using h
  · intro q hqmem
    simp [makeBatch, hq] at hqmem
    rcases hqmem with hmem | rfl
    · exact h q hmem
    · rw [batchString_length _ hq]
      rw [bytesInv] at hbytes
      omega

theorem sizeInv_makeBatch (st : ConnState) (h : sizeInv st) :
    sizeInv (makeBatch st) := by
  obtain ⟨hb, hg, hqb, hf⟩ := h
  refine ⟨bytesInv_makeBatch _ hb, goodAgg_makeBatch _ hg, ?_, ?_⟩
  · intro x hx
    rw [makeBatch_eventQueue] at hx
    simp at hx
  · refine formedSizeOk_makeBatch _ hb ?_ hf
    obtain ⟨hg1, hg2⟩ := hg
    have h3 : bytesFlushThreshold + eventsFlushThreshold + 1 ≤ maxSizePerCall := by decide
    omega

theorem sizeInv_evStep (st : ConnState) (e : String)
    (he : e.length ≤ maxSafeRecordLen) (h : sizeInv st) :
    sizeInv (evStep st e) := by
  obtain ⟨hb, hg, hqb, hf⟩ := h
  have hb' : bytesInv (ingest st e) := bytesInv_ingest st e hb
  have hqb' : queueBounded (ingest st e) := by
    intro x hx
    simp [ingest] at hx
    rcases hx with hx | rfl
    · exact hqb x hx
    · exact he
  unfold evStep
  by_cases hc : eventsFlushThreshold < (ingest st e).eventQueue.length ∨
      bytesFlushThreshold < (ingest st e).queueBytes
  · rw [if_pos hc]
    refine ⟨bytesInv_makeBatch _ hb',
            goodAgg_makeBatch_of_ne _ (by simp [ingest]), ?_, ?_⟩
    · intro x hx
      rw [makeBatch_eventQueue] at hx
      simp at hx
    · refine formedSizeOk_makeBatch _ hb' ?_ hf
      obtain ⟨hg1, hg2⟩ := hg
      have h3 : bytesFlushThreshold + maxSafeRecordLen +
          eventsFlushThreshold + 2 ≤ maxSizePerCall := by decide
      show st.queueBytes + e.length + (st.eventQueue ++ [e]).length + 1 ≤
        maxSizePerCall
      simp
      omega
  · rw [if_neg hc]
    push_neg at hc
    exact ⟨hb', hc, hqb', hf⟩

theorem sizeInv_recv (st : ConnState) (outs : Nat → HttpOutcome)
    (h : sizeInv st) : sizeInv (sysStep st (SysInput.recv outs)) := by
  cases hb : st.batches with
  | nil => simpa [sysStep, hb] using h
  | cons b rest =>
    obtain ⟨h1, h2, h3, h4⟩ := h
    simp only [sysStep, hb]
    exact ⟨h1, h2, h3, h4⟩

theorem sizeInv_sysRun : ∀ (ins : List SysInput) (st : ConnState),
    (∀ e ∈ evRecords ins, e.length ≤ maxSafeRecordLen) →
    sizeInv st → sizeInv (sysRun st ins)
  | [], _, _, h => h
  | SysInput.ev e :: rest, st, hrec, h => by
    have he : e.length ≤ maxSafeRecordLen := hrec e (by simp [evRecords])
    exact sizeInv_sysRun rest _
      (fun x hx => hrec x (by simp [evRecords, hx]))
      (sizeInv_evStep st e he h)
  | SysInput.tick :: rest, st, hrec, h =>
    sizeInv_sysRun rest _
      (fun x hx => hrec x (by simpa [evRecords] using hx))
      (sizeInv_makeBatch st h)
  | SysInput.recv outs :: rest, st, hrec, h =>
    sizeInv_sysRun rest _
      (fun x hx => hrec x (by simpa [evRecords] using hx))
      (sizeInv_recv st outs h)

/-- C3 (amended): after every reachable step the pending queue rests
at or below both 90% thresholds (exceeding either forces a flush at
line 263), and every Batch ever formed has record count at most
maxEventsPerCall (in fact at most 901).  The byte-length bound holds
PROVIDED every ingested record is at most maxSafeRecordLen = 499098
bytes; a single larger record can produce an oversized batch, because
the early-flush check runs only after the record has been appended
(see the counterexample). -/
theorem c3_batch_bounds (ins : List SysInput) :
    (goodAgg (sysRun startState ins) ∧
      ∀ q ∈ (sysRun startState ins).formed, q.length ≤ maxEventsPerCall) ∧
    ((∀ e ∈ evRecords ins, e.length ≤ maxSafeRecordLen) →
      ∀ q ∈ (sysRun startState ins).formed,
        (batchString q).length ≤ maxSizePerCall) := by
  constructor
  · have h := countInv_sysRun ins startState
      ⟨⟨by decide, by decide⟩, by intro q hq; simp [startState] at hq⟩
    exact ⟨h.1, fun q hq => (h.2 q hq).2⟩
  · intro hrec
    have h := sizeInv_sysRun ins startState hrec
      ⟨rfl, ⟨by decide, by decide⟩,
       by intro x hx; simp [startState] at hx,
       by intro q hq; simp [startState] at hq⟩
    exact fun q hq => h.2.2.2 q hq

theorem c3_batch_bounds_witness :
    (batchString ["a"]).length ≤ maxSizePerCall ∧
    (["a"] : List String).length ≤ maxEventsPerCall :=
  ⟨(c3_batch_bounds [SysInput.ev "a", SysInput.tick]).2
      (by decide) ["a"] (by decide),
   (c3_batch_bounds [SysInput.ev "a", SysInput.tick]).1.2
      ["a"] (by decide)⟩

theorem bigRecord_length : bigRecord.length = maxSizePerCall := by
  show (List.replicate maxSizePerCall 'a').length = maxSizePerCall
  exact List.length_replicate maxSizePerCall 'a'

theorem oversized_record_oversized_batch (r : String)
    (hr : r.length = maxSizePerCall) :
    (sysRun startState [SysInput.ev r]).formed = [[r]] ∧
    maxSizePerCall < (batchString [r]).length := by
  have hcond : eventsFlushThreshold < (ingest startState r).eventQueue.length ∨
      bytesFlushThreshold < (ingest startState r).queueBytes := by
    right
    show bytesFlushThreshold < startState.queueBytes + r.length
    rw [hr]
    decide
  constructor
  · show (sysStep startState (SysInput.ev r)).formed = [[r]]
    show (evStep startState r).formed = [[r]]
    unfold evStep
    rw [if_pos hcond]
    simp [makeBatch, ingest, startState]
  · rw [batchString_length [r] (by simp)]
    simp [hr]
    omega

/-- C3 counterexample: one single record of maxSizePerCall bytes is
appended, immediately trips the 90% byte check and is flushed into a
batch on its own — and that batch serializes to maxSizePerCall + 2
bytes, exceeding maxSizePerCall.  The byte-bound consequence of the
claim is therefore false as stated. -/
theorem c3_counterexample :
    (sysRun startState [SysInput.ev bigRecord]).formed = [[bigRecord]] ∧
    maxSizePerCall < (batchString [bigRecord]).length :=
  oversized_record_oversized_batch bigRecord bigRecord_length

/-! C6: exactly one batch per tick below the thresholds. -/

theorem sysRun_append (st : ConnState) (a b : List SysInput) :
    sysRun st (a ++ b) = sysRun (sysRun st a) b := by
  induction a generalizing st with
  | nil => rfl
  | cons i rest ih => simp [sysRun, ih]

theorem sysRun_evs_no_flush :
    ∀ (records : List String) (st : ConnState),
      st.eventQueue.length + records.length ≤ eventsFlushThreshold →
      st.queueBytes + (records.map String.length).sum ≤ bytesFlushThreshold →
      sysRun st (records.map SysInput.ev) =
        { st with
          eventQueue := st.eventQueue ++ records,
          queueBytes := st.queueBytes + (records.map String.length).sum }
  | [], st, _, _ => by
    simp
    rfl
  | e :: rest, st, hc, hb => by
    have hnof : ¬ (eventsFlushThreshold < (ingest st e).eventQueue.length ∨
        bytesFlushThreshold < (ingest st e).queueBytes) := by
      push_neg
      constructor
      · show (st.eventQueue ++ [e]).length ≤ eventsFlushThreshold
        simp at hc ⊢
        omega
      · show st.queueBytes + e.length ≤ bytesFlushThreshold
        simp at hb
        omega
    have hstep : sysStep st (SysInput.ev e) = ingest st e := by
      show evStep st e = ingest st e
      unfold evStep
      rw [if_neg hnof]
    have hc' : (ingest st e).eventQueue.length + rest.length ≤
        eventsFlushThreshold := by
      show (st.eventQueue ++ [e]).length + rest.length ≤ eventsFlushThreshold
      simp at hc ⊢
      omega
    have hb' : (ingest st e).queueBytes + (rest.map String.length).sum ≤
        bytesFlushThreshold := by
      show st.queueBytes + e.length + (rest.map String.length).sum ≤
        bytesFlushThreshold
      simp at hb
      omega
    show sysRun (sysStep st (SysInput.ev e)) (rest.map SysInput.ev) = _
    rw [hstep, sysRun_evs_no_flush rest (ingest st e) hc' hb']
    simp [ingest]
    omega

/-- C6: starting from an Aggregator with nothing pending, any
non-empty sequence of record arrivals that stays at or below the 90%
count and byte thresholds causes no early flush, and the next
sendInterval tick forms exactly one batch, containing exactly those
records in arrival order, leaving the pending queue empty again. -/
theorem c6_one_batch_per_tick (st : ConnState) (records : List String)
    (hq : st.eventQueue = []) (hz : st.queueBytes = 0) (hne : records ≠ [])
    (hcount : records.length ≤ eventsFlushThreshold)
    (hbytes : (records.map String.length).sum ≤ bytesFlushThreshold) :
    (sysRun st (records.map SysInput.ev ++ [SysInput.tick])).formed =
      st.formed ++ [records] ∧
    (sysRun st (records.map SysInput.ev ++ [SysInput.tick])).eventQueue = [] ∧
    (sysRun st (records.map SysInput.ev ++ [SysInput.tick])).queueBytes = 0 := by
  rw [sysRun_append,
    sysRun_evs_no_flush records st (by rw [hq]; simpa) (by rw [hz]; simpa)]
  refine ⟨?_, makeBatch_eventQueue _, ?_⟩
  · show (makeBatch _).formed = _
    simp [makeBatch, hq, hne]
  · show (makeBatch _).queueBytes = 0
    simp [makeBatch, hq, hne]

theorem c6_one_batch_per_tick_witness :
    (sysRun startState (["a", "b"].map SysInput.ev ++ [SysInput.tick])).formed =
      startState.formed ++ [["a", "b"]] ∧
    (sysRun startState
      (["a", "b"].map SysInput.ev ++ [SysInput.tick])).eventQueue = [] ∧
    (sysRun startState
      (["a", "b"].map SysInput.ev ++ [SysInput.tick])).queueBytes = 0 :=
  c6_one_batch_per_tick startState ["a", "b"] rfl rfl (by decide)
    (by decide) (by decide)

/-! C4: the shutdown protocol. -/

theorem sendUnsentLogAux_log (t : Nat) (outs : Nat → HttpOutcome) :
    ∀ (l : List String) (i : Nat),
      (sendUnsentLogAux t outs i l).2 = l.map (fun b => (b, t))
  | [], _ => rfl
  | b :: rest, i => by
    simp [sendUnsentLogAux, sendUnsentLogAux_log t outs rest (i + 1)]

/-- C4: StopAndFlush first closes the Aggregator's input and waits
for the final forced flush (after it, nothing is pending:
final.eventQueue = []), then closes the Dispatcher's input, whose
drain is followed by one final delivery pass run with the shortened
2-second timeout and covering the entire remaining backlog (the
final-pass log records exactly one attempt per backlog element, each
at fastHttpTimeout), and returns only once both completion signals
have been received. -/
theorem c4_stopAndFlush (st : ConnState) (pending : List String)
    (drainOuts : Nat → Nat → HttpOutcome) (finalOuts : Nat → HttpOutcome) :
    (StopAndFlush st pending drainOuts finalOuts).eventsDone = true ∧
    (StopAndFlush st pending drainOuts finalOuts).batchesDone = true ∧
    (StopAndFlush st pending drainOuts finalOuts).final.eventQueue = [] ∧
    (StopAndFlush st pending drainOuts finalOuts).final.httpTimeout =
      fastHttpTimeout ∧
    (StopAndFlush st pending drainOuts finalOuts).finalPassLog =
      (drainBatches drainOuts 0 (makeBatch (pending.foldl evStep st)).batches
          (makeBatch (pending.foldl evStep st)).unsent).map
        (fun b => (b, fastHttpTimeout)) := by
  refine ⟨rfl, rfl, ?_, rfl, ?_⟩
  · show (makeBatch (pending.foldl evStep st)).eventQueue = []
    exact makeBatch_eventQueue _
  · show (sendUnsentLog fastHttpTimeout finalOuts _).2 = _
    exact sendUnsentLogAux_log fastHttpTimeout finalOuts _ 0

end NrInsights
